import Mathlib

set_option maxRecDepth 8000

/-! Formal model of the spatial filtering and segmentation engine of the
`Image_Processing` repository (`common.py`, `segmentation.py`).

Images are pixel grids `Nat → Nat → α` (row, column); the shape `H × W` is
passed alongside the data, mirroring `numpy` arrays whose shape travels next
to the buffer.  Pixel intensities are modelled as rationals (ideal real
arithmetic); the one place where IEEE-754 special values decide a claim
(contrast stretching of a constant image) is modelled separately over a
float-like carrier with `inf`/`nan`. -/

/-- A pixel grid: row and column index to pixel value.  Color images use a
pixel type `α` carrying three channels; grayscale images use `ℚ`.  Values at
indices outside the advertised `H × W` shape are irrelevant junk. -/
abbrev Img (α : Type) : Type := Nat → Nat → α

/-- Padding policies of `pad_image` (common.py): the `"zero_padding"` tag and
any unrecognized tag (which falls through the `match` statement silently). -/
inductive PaddingType
  | zero_padding
  | unrecognized
  deriving DecidableEq

/-- Normalization methods of `image_normalization` (common.py, lines 302-339). -/
inductive NormMethod
  | unchanged
  | stretch
  | cutoff
  | unrecognized
  deriving DecidableEq

/-- Python slice arithmetic for `a[m:-m]` on an axis of length `n`: the stop
index `-m` denotes `n - m`, except that `-0` equals `0`, so a zero margin
yields an empty slice.  This is exactly what `pad_image` in `common.py`
executes for `padding_size = 0`. -/
def negSliceStop (n m : Nat) : Nat := if m = 0 then 0 else n - m

/-- `pad_image` (common.py, lines 231-259).  Allocates an all-zero array of
shape `(H + 2m, W + 2m)` (the three color channels are covered by the pixel
type `α`) and, for the `"zero_padding"` type, executes
`padded_image[padding_size:-padding_size, padding_size:-padding_size] = image[:, :]`.
The assignment follows numpy broadcasting: each source axis must equal the
destination slice length or be `1` (a length-1 axis is repeated, hence the
`min _ (H - 1)` read); otherwise numpy raises `ValueError`, modelled as
`none`.  An unrecognized padding type leaves the all-zero allocation. -/
def pad_image {α : Type} [Zero α] (img : Img α) (H W : Nat)
    (padding_type : PaddingType) (m : Nat) : Option (Img α) :=
  let rows := H + 2 * m
  let cols := W + 2 * m
  match padding_type with
  | .zero_padding =>
      let rStop := negSliceStop rows m
      let cStop := negSliceStop cols m
      if (rStop - m = H ∨ H = 1) ∧ (cStop - m = W ∨ W = 1) then
        some (fun i j =>
          if m ≤ i ∧ i < rStop ∧ m ≤ j ∧ j < cStop then
            img (min (i - m) (H - 1)) (min (j - m) (W - 1))
          else 0)
      else none
  | .unrecognized => some (fun _ _ => 0)

/-- The pixel grid produced by zero padding with a positive margin: the source
image sits in the centered `H × W` region, zeros elsewhere.  For `1 ≤ m`,
`pad_image` under the zero policy returns exactly this grid
(`pad_image_pos_margin`). -/
def padGrid {α : Type} [Zero α] (img : Img α) (H W m : Nat) : Img α :=
  fun i j =>
    if m ≤ i ∧ i < m + H ∧ m ≤ j ∧ j < m + W then img (i - m) (j - m) else 0

/-- `thresholding` (segmentation.py, lines 161-179):
`(image > threshold_value).astype(float)`. -/
def thresholding (img : Img ℚ) (threshold_value : ℚ) : Img ℚ :=
  fun i j => if img i j > threshold_value then 1 else 0

/-- The neighborhood window of `extract_sub_image` (common.py, lines 342-369):
`row_start = position[0] - size // 2` and likewise for columns, so entry
`(u, v)` reads `image[row_start + u][col_start + v]`.  Callers (the
convolution loop) only use positions with both coordinates at least
`size // 2`, where the truncated subtraction below is exact. -/
def subWindow {α : Type} (img : Img α) (position : Nat × Nat) (s : Nat) :
    Img α :=
  fun u v => img (position.1 + u - s / 2) (position.2 + v - s / 2)

/-- `extract_sub_image` (common.py, lines 342-369): rejects an even
`sub_image_size` with a `ValueError` (modelled as `none`), otherwise returns
the `size × size` window centered at `position`. -/
def extract_sub_image {α : Type} (img : Img α) (position : Nat × Nat)
    (sub_image_size : Nat) : Option (Img α) :=
  if sub_image_size % 2 = 0 then none
  else some (subWindow img position sub_image_size)

/-- `np.max` over the `H × W` grid (a fold over all pixels, seeded with pixel
`(0, 0)`; on the empty image numpy would raise, a case no claim touches). -/
def matMax (img : Img ℚ) (H W : Nat) : ℚ :=
  (List.range H).foldl
    (fun a i => (List.range W).foldl (fun b j => max b (img i j)) a) (img 0 0)

/-- `np.min` over the `H × W` grid. -/
def matMin (img : Img ℚ) (H W : Nat) : ℚ :=
  (List.range H).foldl
    (fun a i => (List.range W).foldl (fun b j => min b (img i j)) a) (img 0 0)

/-- `contrast_stretching` (common.py, lines 372-395) over ideal rational
arithmetic: slope `m = 1 / (max_value - min_value)`, output
`m * (image - min_value)`.  Rational division by zero yields `0` here; the
IEEE-754 behaviour of the degenerate constant-image case is modelled
faithfully by `contrast_stretching_ieee` below. -/
def contrast_stretching (img : Img ℚ) (H W : Nat) : Img ℚ :=
  let max_value := matMax img H W
  let min_value := matMin img H W
  let m := 1 / (max_value - min_value)
  fun i j => m * (img i j - min_value)

/-- The two sequential in-place updates of the `'cutoff'` branch of
`image_normalization`: `image[image > 1] = 1` then `image[image < 0] = 0`. -/
def clampPixel (x : ℚ) : ℚ := if x > 1 then 1 else if x < 0 then 0 else x

/-- `image_normalization` (common.py, lines 302-339).  The `'cutoff'` branch
mutates its argument in place and the `'unchanged'` / fallback branches return
the argument object itself, so the model returns the pair
`(returned image, caller's input buffer after the call)`, making in-place
mutation observable. -/
def image_normalization (img : Img ℚ) (H W : Nat) (nm : NormMethod) :
    Img ℚ × Img ℚ :=
  match nm with
  | .unchanged => (img, img)
  | .stretch => (contrast_stretching img H W, img)
  | .cutoff => (fun i j => clampPixel (img i j), fun i j => clampPixel (img i j))
  | .unrecognized => (img, img)

/-- Extracts the image from a successful operation; all-zero grid on error. -/
def getImg (e : Except String (Img ℚ)) : Img ℚ :=
  match e with
  | .ok f => f
  | .error _ => fun _ _ => 0

/-- `convolution_2d` (common.py, lines 262-299).  Checks that the kernel is
square, pads the image by `kernel_size // 2`, and writes to every output pixel
`(i, j)` the product sum of the kernel with the `subWindow` of the padded
image centered at `(i + K//2, j + K//2)` — exactly the window the source loop
obtains from `extract_sub_image` — finally routing the result through
`image_normalization`.  Error cases, all `ValueError` in the source: a
non-square kernel; a failed numpy broadcast inside `pad_image`; and an even
kernel size, raised by `extract_sub_image` on the first loop iteration (the
loop body runs whenever the image is nonempty, `0 < H` and `0 < W`). -/
def convolution_2d (img : Img ℚ) (H W : Nat) (kernel : Img ℚ) (Kh Kw : Nat)
    (padding_type : PaddingType) (normalization_method : NormMethod) :
    Except String (Img ℚ) :=
  if Kh ≠ Kw then .error "Kernel is not symmetrical"
  else
    match pad_image img H W padding_type (Kh / 2) with
    | none => .error "could not broadcast input array"
    | some padded =>
        if 0 < H ∧ 0 < W ∧ Kh % 2 = 0 then
          .error "The selected sub image is an even integer"
        else
          .ok ((image_normalization
            (fun i j => ∑ u ∈ Finset.range Kh, ∑ v ∈ Finset.range Kh,
              subWindow padded (i + Kh / 2, j + Kh / 2) Kh u v * kernel u v)
            H W normalization_method).1)

/-- Filter families of `generate_filter` (common.py, lines 181-228): the box
filter, and the Gaussian filter with its `k` and `sigma` keyword
parameters. -/
inductive FilterType
  | box
  | gaussian (k sigma : ℚ)

/-- `generate_filter` (common.py, lines 181-228), parametric in `mexp`, an
abstract stand-in for the transcendental `math.exp` (its values never matter
to the claims below).  An even integer `filter_size` is rejected with a
`ValueError` before the filter type is inspected; the box branch builds the
all-ones matrix divided by its sum `n * n`; the Gaussian branch builds
`k * exp(-((row - c)² + (col - c)²) / (2 σ²))` with `c = n // 2` and divides
by the total.  Entries outside the `n × n` shape read 0. -/
def generate_filter (mexp : ℚ → ℚ) (filter_type : FilterType) (n : Nat) :
    Except String (Img ℚ) :=
  if n % 2 = 0 then
    .error "Filter size is an even number. Filters should be odd number size"
  else
    match filter_type with
    | .box =>
        .ok (fun u v => if u < n ∧ v < n then 1 / ((n : ℚ) * n) else 0)
    | .gaussian k sigma =>
        let c : ℤ := (n : ℤ) / 2
        let w : Img ℚ := fun u v =>
          k * mexp (-(((((u : ℤ) - c) ^ 2 + ((v : ℤ) - c) ^ 2 : ℤ) : ℚ)) /
            (2 * sigma ^ 2))
        let s : ℚ := ∑ u ∈ Finset.range n, ∑ v ∈ Finset.range n, w u v
        .ok (fun u v => if u < n ∧ v < n then w u v / s else 0)

/-- The image held by `pad_image`'s result for a positive margin, by padding
type: the zero-policy grid, or the untouched all-zero allocation for an
unrecognized policy (the silent fallback). -/
def padValue {α : Type} [Zero α] (img : Img α) (H W : Nat)
    (pt : PaddingType) (m : Nat) : Img α :=
  match pt with
  | .zero_padding => padGrid img H W m
  | .unrecognized => fun _ _ => 0

/-- The raw convolution grid: pixel `(i, j)` is the product sum of the kernel
with the `K × K` window of the padded image centered at
`(i + K//2, j + K//2)`.  For an odd `K ≥ 3` this is exactly the image that
`convolution_2d` wraps in `Except.ok` under the `unchanged` method
(`convolution_2d_odd_ok`). -/
def convGrid (img : Img ℚ) (H W : Nat) (pt : PaddingType) (kernel : Img ℚ)
    (K : Nat) : Img ℚ :=
  fun i j => ∑ u ∈ Finset.range K, ∑ v ∈ Finset.range K,
    padValue img H W pt (K / 2) (i + u) (j + v) * kernel u v

/-- The 3×3 box kernel as produced by `generate_filter` (all weights 1/9). -/
def boxKernel3 : Img ℚ := getImg (generate_filter id FilterType.box 3)

/-- The 3×3 test image `[[0,0,0],[0,1,0],[0,0,0]]` of spec §8. -/
def oneHot3 : Img ℚ := fun i j => if i = 1 ∧ j = 1 then 1 else 0

/-- 3×3 matrices given as row lists, matching the `np.array` literals of the
fixed directional kernels in segmentation.py; entries outside the shape
read 0. -/
def mk3 (rows : List (List ℚ)) : Img ℚ :=
  fun u v => (rows.getD u []).getD v 0

/-- The 8 compass directions of the Kirsch edge detector. -/
inductive KDirection
  | north
  | north_west
  | west
  | south_west
  | south
  | south_east
  | east
  | north_east
  deriving DecidableEq

/-- The `kirsch_edge_detection_kernels` dictionary (segmentation.py,
lines 104-129). -/
def kirschKernel : KDirection → Img ℚ
  | .north => mk3 [[-3, -3, 5], [-3, 0, 5], [-3, -3, 5]]
  | .north_west => mk3 [[-3, 5, 5], [-3, 0, 5], [-3, -3, -3]]
  | .west => mk3 [[5, 5, 5], [-3, 0, -3], [-3, -3, -3]]
  | .south_west => mk3 [[5, 5, -3], [5, 0, -3], [-3, -3, -3]]
  | .south => mk3 [[5, -3, -3], [5, 0, -3], [5, -3, -3]]
  | .south_east => mk3 [[-3, -3, -3], [5, 0, -3], [5, 5, -3]]
  | .east => mk3 [[-3, -3, -3], [-3, 0, -3], [5, 5, 5]]
  | .north_east => mk3 [[-3, -3, -3], [-3, 0, 5], [-3, 5, 5]]

/-- Iteration order of the Kirsch kernel dictionary (Python dictionaries
iterate in insertion order). -/
def kirschList : List KDirection :=
  [.north, .north_west, .west, .south_west, .south, .south_east, .east,
   .north_east]

/-- Modelled from the spec: `Settings/image_settings.py` is not under `src/`.
Spec §4.7 states that the Kirsch convolutions apply no normalization to the
intermediate results, and §4.5 documents `unchanged` as the pass-through
method, so the default normalization method is `unchanged`. -/
def DEFAULT_NORMALIZATION_METHOD : NormMethod := .unchanged

/-- The raw directional response inside `kirsch_edge_detection`: the image
convolved with one directional kernel.  This is the value `convolution_2d`
returns for the 3×3 Kirsch kernels under the default (`unchanged`)
normalization method (`kirschResponse_eq`). -/
def kirschResponse (img : Img ℚ) (H W : Nat) (pt : PaddingType)
    (d : KDirection) : Img ℚ :=
  convGrid img H W pt (kirschKernel d) 3

/-- The `max_value_image` fold of `kirsch_edge_detection` (segmentation.py,
lines 140-145): starting from zeros, for each direction in dictionary order
build `boolean_image = (response > max_value_image) * response` and take
`np.maximum(boolean_image, max_value_image)`. -/
def kirschRunningMax (img : Img ℚ) (H W : Nat) (pt : PaddingType) : Img ℚ :=
  kirschList.foldl
    (fun acc d => fun i j =>
      max (if kirschResponse img H W pt d i j > acc i j
           then kirschResponse img H W pt d i j else 0) (acc i j))
    (fun _ _ => 0)

/-- `kirsch_edge_detection` (segmentation.py, lines 90-153): convolve the
image with each of the 8 directional kernels, amass the running-maximum image,
then keep each direction's response where `response <= max_value_image` and
zero it elsewhere (the boolean-mask multiplication). -/
def kirsch_edge_detection (img : Img ℚ) (H W : Nat) (pt : PaddingType) :
    Except String (KDirection → Img ℚ) := do
  let rN ← convolution_2d img H W (kirschKernel .north) 3 3 pt
    DEFAULT_NORMALIZATION_METHOD
  let rNW ← convolution_2d img H W (kirschKernel .north_west) 3 3 pt
    DEFAULT_NORMALIZATION_METHOD
  let rW ← convolution_2d img H W (kirschKernel .west) 3 3 pt
    DEFAULT_NORMALIZATION_METHOD
  let rSW ← convolution_2d img H W (kirschKernel .south_west) 3 3 pt
    DEFAULT_NORMALIZATION_METHOD
  let rS ← convolution_2d img H W (kirschKernel .south) 3 3 pt
    DEFAULT_NORMALIZATION_METHOD
  let rSE ← convolution_2d img H W (kirschKernel .south_east) 3 3 pt
    DEFAULT_NORMALIZATION_METHOD
  let rE ← convolution_2d img H W (kirschKernel .east) 3 3 pt
    DEFAULT_NORMALIZATION_METHOD
  let rNE ← convolution_2d img H W (kirschKernel .north_east) 3 3 pt
    DEFAULT_NORMALIZATION_METHOD
  let R : KDirection → Img ℚ := fun d =>
    match d with
    | .north => rN
    | .north_west => rNW
    | .west => rW
    | .south_west => rSW
    | .south => rS
    | .south_east => rSE
    | .east => rE
    | .north_east => rNE
  let M : Img ℚ := kirschList.foldl
    (fun acc d => fun i j =>
      max (if R d i j > acc i j then R d i j else 0) (acc i j))
    (fun _ _ => 0)
  return fun d => fun i j => if R d i j ≤ M i j then R d i j else 0

/-- The per-pixel maximum over the 8 directional images (the spec side of the
self-consistency property: "the union of the 8 directional outputs'
maximum"). -/
def dirMax (f : KDirection → ℚ) : ℚ :=
  max (f .north) (max (f .north_west) (max (f .west) (max (f .south_west)
    (max (f .south) (max (f .south_east) (max (f .east) (f .north_east)))))))

/-- `convert_to_grayscale` (common.py, lines 19-42), 2-D branch: a grayscale
image is returned as is.  (The 3-D branch forms the NTSC channel combination
producing the 2-D grid consumed below; the model works over that 2-D
result.) -/
def convert_to_grayscale (img : Img ℚ) : Img ℚ := img

/-- `np.round(x, 3)`: rounding to three decimal digits.  Tie-breaking at exact
half-thousandths differs (numpy rounds half to even); no claim depends on
such ties. -/
def roundTo3 (q : ℚ) : ℚ := (round (q * 1000) : ℤ) / 1000

/-- `np.count_nonzero(grayscale_image > t)` over the `H × W` grid. -/
def countAbove (img : Img ℚ) (H W : Nat) (t : ℚ) : Nat :=
  ∑ i ∈ Finset.range H, ((Finset.range W).filter (fun j => img i j > t)).card

/-- One iteration body of the `global_thresholding` search loop
(segmentation.py, lines 208-236): threshold at `g`, count both pixel groups,
sum `boolean_image * grayscale_image` and its complement, form the two group
means, and return `np.round(0.5 * (above_mean + below_mean), 3)`.  Rational
division models the numpy float quotients; an empty group (count 0) gives
`0 / 0 = 0` here where numpy produces `nan` — a `nan` threshold never
satisfies the stopping condition, so such runs never converge and fall outside
every convergence hypothesis below. -/
def gt_step (img : Img ℚ) (H W : Nat) (g : ℚ) : ℚ :=
  let aboveCount : ℚ := (countAbove img H W g : ℚ)
  let belowCount : ℚ := ((H : ℚ) * W) - aboveCount
  let aboveSum : ℚ := ∑ i ∈ Finset.range H, ∑ j ∈ Finset.range W,
    (if img i j > g then img i j else 0)
  let belowSum : ℚ :=
    (∑ i ∈ Finset.range H, ∑ j ∈ Finset.range W, img i j) - aboveSum
  roundTo3 ((aboveSum / aboveCount + belowSum / belowCount) / 2)

/-- The `while True` loop of `global_thresholding`, with explicit fuel (the
source has no iteration bound): stop and return the current threshold when the
newly computed one moves by less than `delta_t`, else continue from
`np.round(new_global_threshold, 3)`. -/
def gt_loop (img : Img ℚ) (H W : Nat) (delta_t : ℚ) : Nat → ℚ → Option ℚ
  | 0, _ => none
  | fuel + 1, g =>
      let t := gt_step img H W g
      if |t - g| < delta_t then some g
      else gt_loop img H W delta_t fuel (roundTo3 t)

/-- `global_thresholding` (segmentation.py, lines 184-238): convert to
grayscale, seed the loop with `np.round(initial_threshold, 3)`, run the
search, then binarize the grayscale image at `np.round(final, 3)`. -/
def global_thresholding (img : Img ℚ) (H W : Nat) (delta_t : ℚ) (fuel : Nat)
    (initial_threshold : ℚ) : Option (Img ℚ) :=
  let gray := convert_to_grayscale img
  (gt_loop gray H W delta_t fuel (roundTo3 initial_threshold)).map
    (fun g => thresholding gray (roundTo3 g))

/-- IEEE-754-style value carrier for the degenerate-case analysis of
`contrast_stretching`: a finite value, the two infinities, or `nan`. -/
inductive FP
  | num (q : ℚ)
  | inf
  | ninf
  | nan
  deriving DecidableEq

/-- IEEE subtraction (finite minus finite is exact here; the claims only
exercise finite inputs). -/
def fpSub : FP → FP → FP
  | .num a, .num b => .num (a - b)
  | .nan, _ => .nan
  | _, .nan => .nan
  | .inf, .inf => .nan
  | .inf, _ => .inf
  | .ninf, .ninf => .nan
  | .ninf, _ => .ninf
  | .num _, .inf => .ninf
  | .num _, .ninf => .inf

/-- IEEE multiplication: `inf * 0 = nan`, signs propagate. -/
def fpMul : FP → FP → FP
  | .num a, .num b => .num (a * b)
  | .nan, _ => .nan
  | _, .nan => .nan
  | .inf, .inf => .inf
  | .inf, .ninf => .ninf
  | .ninf, .inf => .ninf
  | .ninf, .ninf => .inf
  | .inf, .num b => if b = 0 then .nan else if b > 0 then .inf else .ninf
  | .num a, .inf => if a = 0 then .nan else if a > 0 then .inf else .ninf
  | .ninf, .num b => if b = 0 then .nan else if b > 0 then .ninf else .inf
  | .num a, .ninf => if a = 0 then .nan else if a > 0 then .ninf else .inf

/-- IEEE division: a positive finite value divided by (unsigned rational)
zero is `+inf` — numpy emits only a RuntimeWarning for this. -/
def fpDiv : FP → FP → FP
  | .num a, .num b =>
      if b = 0 then (if a = 0 then .nan else if a > 0 then .inf else .ninf)
      else .num (a / b)
  | .nan, _ => .nan
  | _, .nan => .nan
  | .inf, .inf => .nan
  | .inf, .ninf => .nan
  | .ninf, .inf => .nan
  | .ninf, .ninf => .nan
  | .inf, .num b => if b < 0 then .ninf else .inf
  | .ninf, .num b => if b < 0 then .inf else .ninf
  | .num _, .inf => .num 0
  | .num _, .ninf => .num 0

/-- `np.max`-style pairwise maximum: `nan` propagates. -/
def fpMax : FP → FP → FP
  | .nan, _ => .nan
  | _, .nan => .nan
  | .inf, _ => .inf
  | _, .inf => .inf
  | .ninf, b => b
  | a, .ninf => a
  | .num a, .num b => .num (max a b)

/-- `np.min`-style pairwise minimum: `nan` propagates. -/
def fpMin : FP → FP → FP
  | .nan, _ => .nan
  | _, .nan => .nan
  | .ninf, _ => .ninf
  | _, .ninf => .ninf
  | .inf, b => b
  | a, .inf => a
  | .num a, .num b => .num (min a b)

/-- `np.max` over an `H × W` grid of float-like values. -/
def matMaxFP (img : Img FP) (H W : Nat) : FP :=
  (List.range H).foldl
    (fun a i => (List.range W).foldl (fun b j => fpMax b (img i j)) a)
    (img 0 0)

/-- `np.min` over an `H × W` grid of float-like values. -/
def matMinFP (img : Img FP) (H W : Nat) : FP :=
  (List.range H).foldl
    (fun a i => (List.range W).foldl (fun b j => fpMin b (img i j)) a)
    (img 0 0)

/-- `contrast_stretching` (common.py, lines 372-395) over IEEE-754-style
values — the semantics numpy floats actually follow:
`m = 1 / (max_value - min_value)` evaluates to `+inf` when the image is
constant (division of 1 by 0, for which numpy emits only a RuntimeWarning),
and the returned pixels `m * (image - min_value) = inf * 0` are then `nan`.
No exception is raised anywhere on this path: the function always returns an
image. -/
def contrast_stretching_ieee (img : Img FP) (H W : Nat) : Img FP :=
  let max_value := matMaxFP img H W
  let min_value := matMinFP img H W
  let m := fpDiv (.num 1) (fpSub max_value min_value)
  fun i j => fpMul m (fpSub (img i j) min_value)

theorem pad_image_pos_margin {α : Type} [Zero α] (img : Img α) (H W m : Nat)
    (hm : 1 ≤ m) :
    pad_image img H W .zero_padding m = some (padGrid img H W m) := by
  have hm0 : m ≠ 0 := by omega
  have hr : negSliceStop (H + 2 * m) m = H + m := by
    simp [negSliceStop, hm0]; omega
  have hc : negSliceStop (W + 2 * m) m = W + m := by
    simp [negSliceStop, hm0]; omega
  simp only [pad_image, hr, hc]
  have hb : (H + m - m = H ∨ H = 1) ∧ (W + m - m = W ∨ W = 1) := by omega
  rw [if_pos hb]
  refine congrArg some (funext fun i => funext fun j => ?_)
  by_cases h : m ≤ i ∧ i < H + m ∧ m ≤ j ∧ j < W + m
  · have h2 : m ≤ i ∧ i < m + H ∧ m ≤ j ∧ j < m + W := by omega
    rw [if_pos h, padGrid, if_pos h2]
    have hi : min (i - m) (H - 1) = i - m := by omega
    have hj : min (j - m) (W - 1) = j - m := by omega
    rw [hi, hj]
  · have h2 : ¬(m ≤ i ∧ i < m + H ∧ m ≤ j ∧ j < m + W) := by omega
    rw [if_neg h, padGrid, if_neg h2]

/-- C9: `thresholding(image, t)` returns an image of identical shape (the
output is a grid over the same `H × W` domain by construction) containing only
the values 0 and 1, and an output pixel is 1 exactly when the source pixel
strictly exceeds `t`. -/
theorem thresholding_binary_iff (img : Img ℚ) (t : ℚ) (i j : Nat) :
    (thresholding img t i j = 0 ∨ thresholding img t i j = 1) ∧
    (thresholding img t i j = 1 ↔ img i j > t) := by
  unfold thresholding
  by_cases h : img i j > t
  · simp [h]
  · simp [h]

/-- C1 (amended): for every image (any pixel type, covering `H×W` and
`H×W×3`) and every **positive** margin `m`, zero padding returns the
`(H+2m) × (W+2m)` grid whose centered `H × W` sub-region equals the original
image and whose width-`m` border is all zero.  For `m = 0` the claim fails
(`pad_image_zero_margin_counterexample`): the Python slice `[0:-0]` is empty,
so nothing is copied. -/
theorem pad_image_zero_policy_pos_margin {α : Type} [Zero α] (img : Img α)
    (H W m : Nat) (hm : 1 ≤ m) :
    pad_image img H W .zero_padding m = some (padGrid img H W m) ∧
    (∀ i j, i < H → j < W → padGrid img H W m (m + i) (m + j) = img i j) ∧
    (∀ i j, i < H + 2 * m → j < W + 2 * m →
      (i < m ∨ m + H ≤ i ∨ j < m ∨ m + W ≤ j) → padGrid img H W m i j = 0) := by
  refine ⟨pad_image_pos_margin img H W m hm, ?_, ?_⟩
  · intro i j hi hj
    have h : m ≤ m + i ∧ m + i < m + H ∧ m ≤ m + j ∧ m + j < m + W := by omega
    rw [padGrid, if_pos h, Nat.add_sub_cancel_left, Nat.add_sub_cancel_left]
  · intro i j _ _ hborder
    have h : ¬(m ≤ i ∧ i < m + H ∧ m ≤ j ∧ j < m + W) := by omega
    rw [padGrid, if_neg h]

/-- Witness for `pad_image_zero_policy_pos_margin` at the 2×2 image
`fun i j => i + 2 j` and margin 1. -/
theorem pad_image_zero_policy_pos_margin_witness :
    1 ≤ 1 ∧
    (pad_image (fun i j => (i + 2 * j : ℚ)) 2 2 .zero_padding 1 =
        some (padGrid (fun i j => (i + 2 * j : ℚ)) 2 2 1) ∧
      (∀ i j, i < 2 → j < 2 →
        padGrid (fun i j => (i + 2 * j : ℚ)) 2 2 1 (1 + i) (1 + j) =
          (i + 2 * j : ℚ)) ∧
      (∀ i j, i < 2 + 2 * 1 → j < 2 + 2 * 1 →
        (i < 1 ∨ 1 + 2 ≤ i ∨ j < 1 ∨ 1 + 2 ≤ j) →
        padGrid (fun i j => (i + 2 * j : ℚ)) 2 2 1 i j = 0)) :=
  ⟨le_refl 1,
    pad_image_zero_policy_pos_margin (fun i j => (i + 2 * j : ℚ)) 2 2 1
      (le_refl 1)⟩

/-- C1 counterexample: with margin `m = 0` (a non-negative margin) on the 1×1
image `[[1]]`, the assignment `padded_image[0:-0, 0:-0] = image` copies
nothing — the slice `[0:-0]` is empty and numpy broadcasts the 1×1 source into
the empty destination — so the "central sub-region" pixel `(0,0)` of the
result is `0`, not the original `1`; and on the 2×2 all-ones image with
`m = 0` the assignment raises a broadcast `ValueError` instead of returning an
image at all. -/
theorem pad_image_zero_margin_counterexample :
    (pad_image (fun _ _ => (1 : ℚ)) 1 1 .zero_padding 0).map (fun p => p 0 0) =
      some 0 ∧
    pad_image (fun _ _ => (1 : ℚ)) 2 2 .zero_padding 0 = none ∧
    (0 : ℚ) ≠ 1 := by
  refine ⟨rfl, rfl, by norm_num⟩

/-- C5 counterexample: `image_normalization` under `'cutoff'` mutates its
input in place (`image[image > 1] = 1`): after the call on the 1×1 image
`[[2]]` the caller's buffer holds `1`, no longer the original value `2`. -/
theorem image_normalization_cutoff_mutates_counterexample :
    (image_normalization (fun _ _ => (2 : ℚ)) 1 1 .cutoff).2 0 0 = 1 ∧
    ((fun _ _ => (2 : ℚ)) : Img ℚ) 0 0 = 2 ∧ (1 : ℚ) ≠ 2 := by
  refine ⟨by decide, rfl, by norm_num⟩

/-- C5 (amended): value-level frame behaviour of `image_normalization`: under
`'unchanged'`, `'stretch'` and the unrecognized fallback the caller's input
buffer keeps its values (`'unchanged'` and the fallback moreover return that
very buffer rather than a fresh array); under `'cutoff'` the input buffer is
clamped to `[0,1]` in place and the returned image is that same mutated
buffer. -/
theorem image_normalization_frame (img : Img ℚ) (H W : Nat) :
    image_normalization img H W .unchanged = (img, img) ∧
    (image_normalization img H W .stretch).2 = img ∧
    image_normalization img H W .unrecognized = (img, img) ∧
    (image_normalization img H W .cutoff).2 =
      (image_normalization img H W .cutoff).1 ∧
    (∀ i j,
      (image_normalization img H W .cutoff).1 i j = clampPixel (img i j)) :=
  ⟨rfl, rfl, rfl, rfl, fun _ _ => rfl⟩

/-- C4 (evaluation of the code at the failing input): contrast stretching of a
constant image under IEEE float semantics silently returns `nan` pixels —
the slope `1 / (max - min) = 1 / 0` evaluates to `+inf` and the output pixel
`inf * (pixel - min) = inf * 0` to `nan`.  No failure is signalled: like the
source (which only logs), the function returns an image.  Evaluated at the
constant 1×1 image `[[1/2]]`. -/
theorem contrast_stretching_constant_silent_nan :
    contrast_stretching_ieee (fun _ _ => FP.num (1 / 2)) 1 1 0 0 = FP.nan := by
  norm_num [contrast_stretching_ieee, matMaxFP, matMinFP, List.range_succ,
    fpSub, fpDiv, fpMul, fpMax, fpMin]

/-- C8 (amended): `generate_filter` rejects an even `filter_size` with a
`ValueError` before the filter type is even inspected, and
`extract_sub_image` rejects an even `sub_image_size`, both unconditionally;
`convolution_2d` with an even-sided kernel raises a `ValueError` whenever the
image is **nonempty** (`0 < H` and `0 < W`) — from `extract_sub_image` on the
first loop iteration, or, for the degenerate size 0, from the numpy broadcast
inside `pad_image`.  The claim's "in all cases" fails for convolution on an
empty image, where the pixel loop never runs, the even size is never checked,
and an empty image is returned without any error
(`convolution_even_kernel_empty_image_counterexample`). -/
theorem even_size_rejected (n : Nat) (hn : n % 2 = 0) (mexp : ℚ → ℚ)
    (ft : FilterType) {α : Type} (img0 : Img α) (pos : Nat × Nat)
    (img : Img ℚ) (H W : Nat) (hH : 0 < H) (hW : 0 < W) (kernel : Img ℚ)
    (pt : PaddingType) (nm : NormMethod) :
    generate_filter mexp ft n =
      .error
        "Filter size is an even number. Filters should be odd number size" ∧
    extract_sub_image img0 pos n = none ∧
    ∃ e, convolution_2d img H W kernel n n pt nm = Except.error e := by
  have hKK : ¬(n ≠ n) := by simp
  refine ⟨by rw [generate_filter.eq_def, if_pos hn],
    by rw [extract_sub_image, if_pos hn], ?_⟩
  cases hpad : pad_image img H W pt (n / 2) with
  | none =>
      refine ⟨"could not broadcast input array", ?_⟩
      rw [convolution_2d, if_neg hKK, hpad]
  | some padded =>
      refine ⟨"The selected sub image is an even integer", ?_⟩
      rw [convolution_2d, if_neg hKK, hpad]
      exact if_pos ⟨hH, hW, hn⟩

/-- Witness for `even_size_rejected`: size 4 with the box filter type, a 1×1
image, and an all-zero 4×4 kernel. -/
theorem even_size_rejected_witness :
    (4 % 2 = 0 ∧ 0 < 1) ∧
    (generate_filter id .box 4 =
        .error
          "Filter size is an even number. Filters should be odd number size" ∧
      extract_sub_image (fun _ _ => (0 : ℚ)) (0, 0) 4 = none ∧
      ∃ e, convolution_2d (fun _ _ => (0 : ℚ)) 1 1 (fun _ _ => (0 : ℚ)) 4 4
        .zero_padding .unchanged = Except.error e) :=
  ⟨⟨rfl, Nat.one_pos⟩,
    even_size_rejected 4 rfl id .box (fun _ _ => (0 : ℚ)) (0, 0)
      (fun _ _ => (0 : ℚ)) 1 1 Nat.one_pos Nat.one_pos (fun _ _ => (0 : ℚ))
      .zero_padding .unchanged⟩

/-- C8 counterexample: convolution with an even-sided kernel is **not**
rejected in all cases.  On the empty 0×1 image with a 2×2 kernel, the padding
assignment succeeds (a `(0, 1)` source fits the `(0, 1)` destination slice),
the pixel loop `range(1, 0 + 1)` never runs, so `extract_sub_image` — the
only place the even size is checked on this path — is never called, and
`convolution_2d` returns an (empty) image with no error at all. -/
theorem convolution_even_kernel_empty_image_counterexample :
    (2 % 2 = 0) ∧
    ∃ out, convolution_2d (fun _ _ => (0 : ℚ)) 0 1 (fun _ _ => (0 : ℚ)) 2 2
      .zero_padding .unchanged = Except.ok out :=
  ⟨rfl, ⟨_, rfl⟩⟩

theorem pad_image_pos_margin_value {α : Type} [Zero α] (img : Img α)
    (H W m : Nat) (hm : 1 ≤ m) (pt : PaddingType) :
    pad_image img H W pt m = some (padValue img H W pt m) := by
  cases pt with
  | zero_padding => exact pad_image_pos_margin img H W m hm
  | unrecognized => rfl

theorem convolution_2d_odd_ok (img : Img ℚ) (H W : Nat) (kernel : Img ℚ)
    (K : Nat) (pt : PaddingType) (hK : K % 2 = 1) (hK3 : 3 ≤ K) :
    convolution_2d img H W kernel K K pt .unchanged =
      Except.ok (convGrid img H W pt kernel K) := by
  have hm : 1 ≤ K / 2 := by omega
  have hKK : ¬(K ≠ K) := by simp
  rw [convolution_2d, if_neg hKK, pad_image_pos_margin_value img H W (K / 2) hm pt]
  have hcond : ¬(0 < H ∧ 0 < W ∧ K % 2 = 0) := by omega
  refine (if_neg hcond).trans ?_
  refine congrArg Except.ok ?_
  funext i j
  show (∑ u ∈ Finset.range K, ∑ v ∈ Finset.range K,
      subWindow (padValue img H W pt (K / 2)) (i + K / 2, j + K / 2) K u v *
        kernel u v) =
    convGrid img H W pt kernel K i j
  refine Finset.sum_congr rfl fun u _ => Finset.sum_congr rfl fun v _ => ?_
  simp only [subWindow, convGrid]
  have h1 : i + K / 2 + u - K / 2 = i + u := by omega
  have h2 : j + K / 2 + v - K / 2 = j + v := by omega
  rw [h1, h2]

/-- C3 (amended): convolving a constant-valued image with any kernel of odd
side `K ≥ 3` whose weights sum to 1 — the box and Gaussian kernels of
`generate_filter` are normalized this way — under zero padding and
normalization `unchanged` reproduces the constant at every **interior** pixel,
i.e. at every pixel whose `K × K` neighborhood lies inside the image.  As
stated the claim is false: at boundary pixels the zero padding leaks zeros
into the window (`convolution_constant_boundary_counterexample`). -/
theorem convolution_constant_interior (img : Img ℚ) (c : ℚ) (H W : Nat)
    (kernel : Img ℚ) (K : Nat) (i j : Nat)
    (hconst : ∀ a b, a < H → b < W → img a b = c)
    (hsum : ∑ u ∈ Finset.range K, ∑ v ∈ Finset.range K, kernel u v = 1)
    (hK : K % 2 = 1) (hK3 : 3 ≤ K)
    (hi1 : K / 2 ≤ i) (hi2 : i + K / 2 < H)
    (hj1 : K / 2 ≤ j) (hj2 : j + K / 2 < W) :
    ∃ out, convolution_2d img H W kernel K K .zero_padding .unchanged =
        Except.ok out ∧ out i j = c := by
  refine ⟨convGrid img H W .zero_padding kernel K,
    convolution_2d_odd_ok img H W kernel K .zero_padding hK hK3, ?_⟩
  show (∑ u ∈ Finset.range K, ∑ v ∈ Finset.range K,
      padValue img H W .zero_padding (K / 2) (i + u) (j + v) * kernel u v) = c
  have hstep : ∀ u ∈ Finset.range K, ∀ v ∈ Finset.range K,
      padValue img H W .zero_padding (K / 2) (i + u) (j + v) * kernel u v =
        c * kernel u v := by
    intro u hu v hv
    rw [Finset.mem_range] at hu hv
    have hin : K / 2 ≤ i + u ∧ i + u < K / 2 + H ∧ K / 2 ≤ j + v ∧
        j + v < K / 2 + W := by omega
    simp only [padValue, padGrid]
    rw [if_pos hin, hconst _ _ (by omega) (by omega)]
  calc (∑ u ∈ Finset.range K, ∑ v ∈ Finset.range K,
      padValue img H W .zero_padding (K / 2) (i + u) (j + v) * kernel u v)
      = ∑ u ∈ Finset.range K, ∑ v ∈ Finset.range K, c * kernel u v :=
        Finset.sum_congr rfl fun u hu =>
          Finset.sum_congr rfl fun v hv => hstep u hu v hv
    _ = c * ∑ u ∈ Finset.range K, ∑ v ∈ Finset.range K, kernel u v := by
        simp [Finset.mul_sum]
    _ = c := by rw [hsum, mul_one]

/-- Witness for `convolution_constant_interior`: the 3×3 constant image of
value 7 with the box kernel produced by `generate_filter`, at the interior
pixel (1,1). -/
theorem convolution_constant_interior_witness :
    ((∑ u ∈ Finset.range 3, ∑ v ∈ Finset.range 3, boxKernel3 u v) = 1 ∧
      3 % 2 = 1 ∧ 3 / 2 ≤ 1 ∧ 1 + 3 / 2 < 3) ∧
    (∃ out, convolution_2d (fun _ _ => (7 : ℚ)) 3 3 boxKernel3 3 3
        .zero_padding .unchanged = Except.ok out ∧ out 1 1 = 7) :=
  ⟨⟨by norm_num [boxKernel3, generate_filter, getImg, Finset.sum_range_succ],
    by decide, by decide, by decide⟩,
   convolution_constant_interior (fun _ _ => (7 : ℚ)) 7 3 3 boxKernel3 3 1 1
     (fun _ _ _ _ => rfl)
     (by norm_num [boxKernel3, generate_filter, getImg, Finset.sum_range_succ])
     (by decide) (by decide) (by decide) (by decide) (by decide) (by decide)⟩

/-- C3 counterexample: the claim as stated fails at boundary pixels.  The 1×1
constant image `[[1]]` convolved with the normalized 3×3 box kernel of
`generate_filter` under zero padding yields `1/9` at its only pixel, not the
constant `1`: the window mostly covers the zero border. -/
theorem convolution_constant_boundary_counterexample :
    (∑ u ∈ Finset.range 3, ∑ v ∈ Finset.range 3, boxKernel3 u v) = 1 ∧
    (∃ out, convolution_2d (fun _ _ => (1 : ℚ)) 1 1 boxKernel3 3 3
        .zero_padding .unchanged = Except.ok out ∧ out 0 0 = 1 / 9) ∧
    (1 / 9 : ℚ) ≠ 1 := by
  refine ⟨by norm_num [boxKernel3, generate_filter, getImg,
      Finset.sum_range_succ], ?_, by norm_num⟩
  refine ⟨convGrid (fun _ _ => (1 : ℚ)) 1 1 .zero_padding boxKernel3 3,
    convolution_2d_odd_ok _ 1 1 boxKernel3 3 .zero_padding rfl
      (by norm_num), ?_⟩
  norm_num [convGrid, padValue, padGrid, boxKernel3, generate_filter, getImg,
    Finset.sum_range_succ]

/-- C6 (amended): the 3×3 image `[[0,0,0],[0,1,0],[0,0,0]]` convolved with the
3×3 box kernel (all weights 1/9) under zero padding yields `1/9` at **every**
one of the nine output pixels — the single bright center pixel lies within the
3×3 neighborhood of every pixel of a 3×3 image, so the corner outputs are also
`1/9`, not 0 as claimed (`convolution_one_hot_corner_counterexample`). -/
theorem convolution_one_hot_box_all_pixels (i j : Nat) (hi : i < 3)
    (hj : j < 3) :
    ∃ out, convolution_2d oneHot3 3 3 boxKernel3 3 3 .zero_padding .unchanged =
        Except.ok out ∧ out i j = 1 / 9 := by
  refine ⟨convGrid oneHot3 3 3 .zero_padding boxKernel3 3,
    convolution_2d_odd_ok oneHot3 3 3 boxKernel3 3 .zero_padding rfl
      (by norm_num), ?_⟩
  interval_cases i <;> interval_cases j <;>
    norm_num [convGrid, padValue, padGrid, oneHot3, boxKernel3,
      generate_filter, getImg, Finset.sum_range_succ]

/-- Witness for `convolution_one_hot_box_all_pixels` at the corner pixel
(0, 0). -/
theorem convolution_one_hot_box_all_pixels_witness :
    ((0 : Nat) < 3 ∧ (0 : Nat) < 3) ∧
    (∃ out, convolution_2d oneHot3 3 3 boxKernel3 3 3 .zero_padding
        .unchanged = Except.ok out ∧ out 0 0 = 1 / 9) :=
  ⟨⟨by decide, by decide⟩,
    convolution_one_hot_box_all_pixels 0 0 (by decide) (by decide)⟩

/-- C6 counterexample: the corner output pixel of the spec §8 example is
`1/9`, not 0 as claimed. -/
theorem convolution_one_hot_corner_counterexample :
    (∃ out, convolution_2d oneHot3 3 3 boxKernel3 3 3 .zero_padding
        .unchanged = Except.ok out ∧ out 0 0 = 1 / 9) ∧
    (1 / 9 : ℚ) ≠ 0 := by
  refine ⟨⟨convGrid oneHot3 3 3 .zero_padding boxKernel3 3,
    convolution_2d_odd_ok oneHot3 3 3 boxKernel3 3 .zero_padding rfl
      (by norm_num), ?_⟩, by norm_num⟩
  norm_num [convGrid, padValue, padGrid, oneHot3, boxKernel3, generate_filter,
    getImg, Finset.sum_range_succ]

theorem roundTo3_idem (q : ℚ) : roundTo3 (roundTo3 q) = roundTo3 q := by
  unfold roundTo3
  rw [div_mul_cancel₀ _ (by norm_num : (1000 : ℚ) ≠ 0), round_intCast]

theorem gt_loop_result (img : Img ℚ) (H W : Nat) (delta_t : ℚ) :
    ∀ fuel g T, roundTo3 g = g → gt_loop img H W delta_t fuel g = some T →
      roundTo3 T = T ∧ |gt_step img H W T - T| < delta_t := by
  intro fuel
  induction fuel with
  | zero => intro g T _ h; simp [gt_loop] at h
  | succ n ih =>
      intro g T hg h
      simp only [gt_loop] at h
      by_cases hc : |gt_step img H W g - g| < delta_t
      · rw [if_pos hc] at h
        obtain rfl : g = T := by injection h
        exact ⟨hg, hc⟩
      · rw [if_neg hc] at h
        exact ih (roundTo3 (gt_step img H W g)) T (roundTo3_idem _) h

/-- C7: once `global_thresholding` has converged to a final threshold `T`
(i.e. its search loop, started from some seed `t0`, returned `T`), re-running
the algorithm with `T` as the initial threshold stops on the very first pass
of the loop — fuel 1 suffices, the stopping condition `|new - T| < delta_t`
holds immediately — and returns the same binarized image as the original
run. -/
theorem global_thresholding_idempotent (img : Img ℚ) (H W : Nat)
    (delta_t : ℚ) (fuel : Nat) (t0 T : ℚ)
    (h : gt_loop (convert_to_grayscale img) H W delta_t fuel (roundTo3 t0) =
      some T) :
    gt_loop (convert_to_grayscale img) H W delta_t 1 (roundTo3 T) = some T ∧
    global_thresholding img H W delta_t 1 T =
      global_thresholding img H W delta_t fuel t0 := by
  obtain ⟨hT, hc⟩ :=
    gt_loop_result (convert_to_grayscale img) H W delta_t fuel (roundTo3 t0) T
      (roundTo3_idem t0) h
  have h1 : gt_loop (convert_to_grayscale img) H W delta_t 1 (roundTo3 T) =
      some T := by
    rw [hT]
    show gt_loop (convert_to_grayscale img) H W delta_t (0 + 1) T = some T
    simp only [gt_loop]
    rw [if_pos hc]
  refine ⟨h1, ?_⟩
  show Option.map
      (fun g => thresholding (convert_to_grayscale img) (roundTo3 g))
      (gt_loop (convert_to_grayscale img) H W delta_t 1 (roundTo3 T)) =
    Option.map (fun g => thresholding (convert_to_grayscale img) (roundTo3 g))
      (gt_loop (convert_to_grayscale img) H W delta_t fuel (roundTo3 t0))
  rw [h1, h]

/-- Witness for `global_thresholding_idempotent`: on the 1×2 image `[[0, 1]]`
with `delta_t = 1/100`, the loop started at seed `1/2` converges immediately
to `T = 1/2` (the two group means are 1 and 0, so the new threshold is again
`1/2`); re-running from `1/2` stops in one iteration with the same result. -/
theorem global_thresholding_idempotent_witness :
    gt_loop (convert_to_grayscale (fun _ j => if j = 0 then 0 else 1)) 1 2
      (1 / 100) 1 (roundTo3 (1 / 2)) = some (1 / 2) ∧
    (gt_loop (convert_to_grayscale (fun _ j => if j = 0 then 0 else 1)) 1 2
        (1 / 100) 1 (roundTo3 (1 / 2)) = some (1 / 2) ∧
      global_thresholding (fun _ j => if j = 0 then 0 else 1) 1 2 (1 / 100) 1
          (1 / 2) =
        global_thresholding (fun _ j => if j = 0 then 0 else 1) 1 2 (1 / 100)
          1 (1 / 2)) :=
  ⟨by norm_num [gt_loop, gt_step, countAbove, roundTo3, round_eq,
      convert_to_grayscale, Finset.range_succ, Finset.sum_range_succ,
      Finset.filter_insert, Finset.filter_singleton],
   global_thresholding_idempotent (fun _ j => if j = 0 then 0 else 1) 1 2
     (1 / 100) 1 (1 / 2) (1 / 2)
     (by norm_num [gt_loop, gt_step, countAbove, roundTo3, round_eq,
        convert_to_grayscale, Finset.range_succ, Finset.sum_range_succ,
        Finset.filter_insert, Finset.filter_singleton])⟩

theorem kirsch_conv_ok (img : Img ℚ) (H W : Nat) (pt : PaddingType)
    (d : KDirection) :
    convolution_2d img H W (kirschKernel d) 3 3 pt
        DEFAULT_NORMALIZATION_METHOD =
      Except.ok (convGrid img H W pt (kirschKernel d) 3) :=
  convolution_2d_odd_ok img H W (kirschKernel d) 3 pt rfl (by norm_num)

theorem kirschResponse_eq (img : Img ℚ) (H W : Nat) (pt : PaddingType)
    (d : KDirection) :
    getImg (convolution_2d img H W (kirschKernel d) 3 3 pt
        DEFAULT_NORMALIZATION_METHOD) = kirschResponse img H W pt d := by
  rw [kirsch_conv_ok]
  rfl

theorem kirsch_edge_detection_ok (img : Img ℚ) (H W : Nat)
    (pt : PaddingType) :
    kirsch_edge_detection img H W pt =
      Except.ok (fun d i j =>
        if kirschResponse img H W pt d i j ≤ kirschRunningMax img H W pt i j
        then kirschResponse img H W pt d i j else 0) := by
  unfold kirsch_edge_detection
  rw [kirsch_conv_ok img H W pt .north, kirsch_conv_ok img H W pt .north_west,
    kirsch_conv_ok img H W pt .west, kirsch_conv_ok img H W pt .south_west,
    kirsch_conv_ok img H W pt .south, kirsch_conv_ok img H W pt .south_east,
    kirsch_conv_ok img H W pt .east, kirsch_conv_ok img H W pt .north_east]
  refine congrArg Except.ok ?_
  funext d i j
  cases d <;> rfl

theorem kfold_apply (f : KDirection → Img ℚ) (ds : List KDirection)
    (acc : Img ℚ) (i j : Nat) :
    (ds.foldl (fun acc d => fun i j =>
        max (if f d i j > acc i j then f d i j else 0) (acc i j)) acc) i j =
      ds.foldl (fun a d => max (if f d i j > a then f d i j else 0) a)
        (acc i j) := by
  induction ds generalizing acc with
  | nil => rfl
  | cons d ds ih =>
      rw [List.foldl_cons, List.foldl_cons]
      exact ih (fun i j => max (if f d i j > acc i j then f d i j else 0)
        (acc i j))

theorem kfold_scalar_max (g : KDirection → ℚ) (ds : List KDirection) (a : ℚ)
    (ha : 0 ≤ a) :
    ds.foldl (fun a d => max (if g d > a then g d else 0) a) a =
      ds.foldl (fun a d => max a (g d)) a := by
  induction ds generalizing a with
  | nil => rfl
  | cons d ds ih =>
      rw [List.foldl_cons, List.foldl_cons]
      have hstep : max (if g d > a then g d else 0) a = max a (g d) := by
        by_cases h : g d > a
        · rw [if_pos h, max_comm]
        · rw [if_neg h, max_eq_right ha, max_eq_left (le_of_not_lt h)]
      rw [hstep]
      exact ih (max a (g d)) (le_trans ha (le_max_left a (g d)))

theorem kirschRunningMax_apply (img : Img ℚ) (H W : Nat) (pt : PaddingType)
    (i j : Nat) :
    kirschRunningMax img H W pt i j =
      kirschList.foldl
        (fun a d => max a (kirschResponse img H W pt d i j)) 0 :=
  (kfold_apply (fun d => kirschResponse img H W pt d) kirschList
      (fun _ _ => 0) i j).trans
    (kfold_scalar_max (fun d => kirschResponse img H W pt d i j) kirschList 0
      le_rfl)

theorem kirschResponse_le_runningMax (img : Img ℚ) (H W : Nat)
    (pt : PaddingType) (d : KDirection) (i j : Nat) :
    kirschResponse img H W pt d i j ≤ kirschRunningMax img H W pt i j := by
  rw [kirschRunningMax_apply]
  cases d <;>
    simp [kirschList, List.foldl_cons, List.foldl_nil, le_max_iff, le_refl]

/-- C10: each of the 8 directional output images returned by
`kirsch_edge_detection` equals the raw convolution response of its direction
at every pixel.  The running maximum is the pointwise maximum of 0 and all
8 responses, so the comparison `response <= running maximum` is true
everywhere and the non-domination mask never zeroes any pixel. -/
theorem kirsch_outputs_eq_raw_responses (img : Img ℚ) (H W : Nat)
    (pt : PaddingType) :
    ∃ out, kirsch_edge_detection img H W pt = Except.ok out ∧
      ∀ d i j, out d i j = kirschResponse img H W pt d i j := by
  refine ⟨_, kirsch_edge_detection_ok img H W pt, ?_⟩
  intro d i j
  exact if_pos (kirschResponse_le_runningMax img H W pt d i j)

theorem le_dirMax (g : KDirection → ℚ) (d : KDirection) : g d ≤ dirMax g := by
  unfold dirMax
  cases d <;> simp [le_max_iff, le_refl]

theorem dirMax_eq_fold_of_nonneg (g : KDirection → ℚ)
    (hpos : 0 ≤ dirMax g) :
    dirMax g = kirschList.foldl (fun a d => max a (g d)) 0 := by
  refine Eq.trans ?_ (List.foldl_map g max kirschList 0)
  unfold dirMax at hpos ⊢
  unfold kirschList
  simp only [List.map_cons, List.map_nil, List.foldl_cons, List.foldl_nil,
    List.foldl_assoc]
  exact (max_eq_right hpos).symm

theorem kirsch_responses_sum_zero (img : Img ℚ) (H W : Nat)
    (pt : PaddingType) (i j : Nat) :
    kirschResponse img H W pt .north i j +
      kirschResponse img H W pt .north_west i j +
      kirschResponse img H W pt .west i j +
      kirschResponse img H W pt .south_west i j +
      kirschResponse img H W pt .south i j +
      kirschResponse img H W pt .south_east i j +
      kirschResponse img H W pt .east i j +
      kirschResponse img H W pt .north_east i j = 0 := by
  simp only [kirschResponse, convGrid, kirschKernel, mk3,
    Finset.sum_range_succ, Finset.sum_range_zero, List.getD_cons_zero,
    List.getD_cons_succ]
  norm_num [List.getD]
  ring

theorem kirsch_dirMax_nonneg (img : Img ℚ) (H W : Nat) (pt : PaddingType)
    (i j : Nat) :
    0 ≤ dirMax (fun d => kirschResponse img H W pt d i j) := by
  have hsum := kirsch_responses_sum_zero img H W pt i j
  by_contra hneg
  push_neg at hneg
  have h1 := lt_of_le_of_lt
    (le_dirMax (fun d => kirschResponse img H W pt d i j) .north) hneg
  have h2 := lt_of_le_of_lt
    (le_dirMax (fun d => kirschResponse img H W pt d i j) .north_west) hneg
  have h3 := lt_of_le_of_lt
    (le_dirMax (fun d => kirschResponse img H W pt d i j) .west) hneg
  have h4 := lt_of_le_of_lt
    (le_dirMax (fun d => kirschResponse img H W pt d i j) .south_west) hneg
  have h5 := lt_of_le_of_lt
    (le_dirMax (fun d => kirschResponse img H W pt d i j) .south) hneg
  have h6 := lt_of_le_of_lt
    (le_dirMax (fun d => kirschResponse img H W pt d i j) .south_east) hneg
  have h7 := lt_of_le_of_lt
    (le_dirMax (fun d => kirschResponse img H W pt d i j) .east) hneg
  have h8 := lt_of_le_of_lt
    (le_dirMax (fun d => kirschResponse img H W pt d i j) .north_east) hneg
  linarith

/-- C2: for every input image, at every pixel the maximum over the 8
directional output images returned by `kirsch_edge_detection` equals the
running-maximum (`max_value_image`) value computed at that pixel.  The
directional outputs are the raw responses (the non-domination mask never
zeroes a pixel), and because the 8 Kirsch kernels sum to the zero matrix the
8 responses sum to 0 at every pixel, so the largest response is never
negative and the 0-seeded running maximum equals the true response
maximum. -/
theorem kirsch_max_outputs_eq_running_max (img : Img ℚ) (H W : Nat)
    (pt : PaddingType) (i j : Nat) :
    ∃ out, kirsch_edge_detection img H W pt = Except.ok out ∧
      dirMax (fun d => out d i j) = kirschRunningMax img H W pt i j := by
  refine ⟨_, kirsch_edge_detection_ok img H W pt, ?_⟩
  have houts : ∀ d : KDirection,
      (if kirschResponse img H W pt d i j ≤ kirschRunningMax img H W pt i j
        then kirschResponse img H W pt d i j else 0) =
        kirschResponse img H W pt d i j :=
    fun d => if_pos (kirschResponse_le_runningMax img H W pt d i j)
  show dirMax (fun d =>
      if kirschResponse img H W pt d i j ≤ kirschRunningMax img H W pt i j
      then kirschResponse img H W pt d i j else 0) =
    kirschRunningMax img H W pt i j
  have hdm : dirMax (fun d =>
      if kirschResponse img H W pt d i j ≤ kirschRunningMax img H W pt i j
      then kirschResponse img H W pt d i j else 0) =
      dirMax (fun d => kirschResponse img H W pt d i j) := by
    unfold dirMax
    simp only [houts]
  rw [hdm, kirschRunningMax_apply]
  exact dirMax_eq_fold_of_nonneg _ (kirsch_dirMax_nonneg img H W pt i j)
